import Mathlib

/-!
Verification of the sensutv uploader bot (`src/app.py`).

The Python program is shallowly embedded: Python strings are `List Char`
(sequences of Unicode code points), dictionaries are association lists,
and the Telegram conversation handlers become pure step functions from
(input text, scratch data, loaded documents) to (next state, new scratch
data / new documents).  File I/O is made explicit: a read either yields a
value, finds the file absent, or fails, and the loaders map the latter two
cases to their defaults exactly as `_load_json` does.
-/

namespace SensuTV

/-! ### Character-level model of the Python `str` methods used by `app.py`

`str.strip`, `str.lower`, `str.isalnum` and `str.isdigit` are Unicode
operations; they are modelled here on the Basic Latin and Latin-1 ranges,
which cover every literal appearing in the program and its spec.  Note that
Python's `isalnum` is true for accented letters such as `ú` (they are
Unicode letters), and `lower` maps `À`–`Þ` (except `×`) down by 0x20. -/

/-- Model of `str.isspace` / the default `str.strip` character class (ASCII part). -/
def pyIsSpace (c : Char) : Bool :=
  decide (c.toNat = 32 ∨ (9 ≤ c.toNat ∧ c.toNat ≤ 13))

/-- Model of `str.isalnum`, restricted to Basic Latin and Latin-1: ASCII digits and
letters, the Latin-1 letters `À`–`ÿ` minus `×`/`÷`, and the Latin-1
ordinals/superscripts/micro (`ª µ º ² ³ ¹`). -/
def pyIsAlnum (c : Char) : Bool :=
  decide ((48 ≤ c.toNat ∧ c.toNat ≤ 57) ∨ (65 ≤ c.toNat ∧ c.toNat ≤ 90) ∨
    (97 ≤ c.toNat ∧ c.toNat ≤ 122) ∨
    (192 ≤ c.toNat ∧ c.toNat ≤ 255 ∧ c.toNat ≠ 215 ∧ c.toNat ≠ 247) ∨
    c.toNat = 170 ∨ c.toNat = 181 ∨ c.toNat = 186 ∨
    c.toNat = 178 ∨ c.toNat = 179 ∨ c.toNat = 185)

/-- Model of `str.isdigit` (ASCII digits). -/
def pyIsDigit (c : Char) : Bool :=
  decide (48 ≤ c.toNat ∧ c.toNat ≤ 57)

/-- Per-character `str.lower` on Basic Latin and Latin-1: `A`–`Z` and
`À`–`Þ` (except the multiplication sign `×`) move down by 0x20. -/
def pyLower (c : Char) : Char :=
  if (65 ≤ c.toNat ∧ c.toNat ≤ 90) ∨
     (192 ≤ c.toNat ∧ c.toNat ≤ 222 ∧ c.toNat ≠ 215) then
    Char.ofNat (c.toNat + 32)
  else c

/-- Remove the characters satisfying `p` from both ends
(Python `str.strip`). -/
def stripWhile (p : Char → Bool) (l : List Char) : List Char :=
  ((l.dropWhile p).reverse.dropWhile p).reverse

/-- Python `s.strip()` with no argument: strip whitespace. -/
def pyStrip (l : List Char) : List Char := stripWhile pyIsSpace l

/-- The hyphen test used by `res.strip("-")`. -/
def isDash (c : Char) : Bool := c == '-'

/-- The fixed separator set of `slugify` (app.py line 122):
characters mapped to a hyphen. -/
def isSep (c : Char) : Bool :=
  c ∈ [' ', '.', '/', '\\', '|', ':', ';', ',', '+', '&']

/-- The per-character branch of `slugify`'s loop (app.py lines 119-125):
alphanumerics pass through, separators become `-`, `_`/`-` pass through,
anything else is dropped. -/
def slugMap (c : Char) : Option Char :=
  if pyIsAlnum c then some c
  else if isSep c then some '-'
  else if c = '_' ∨ c = '-' then some c
  else none

/-- The `while "--" in res: res = res.replace("--", "-")` loop
(app.py lines 127-128): its fixpoint collapses every run of consecutive
hyphens to a single hyphen, scanning left to right. -/
def collapseDashes : List Char → List Char
  | [] => []
  | [c] => [c]
  | c1 :: c2 :: rest =>
    if c1 = '-' ∧ c2 = '-' then collapseDashes (c2 :: rest)
    else c1 :: collapseDashes (c2 :: rest)

/-- Embeds `slugify` (app.py lines 116-129): strip + lower, per-character map,
collapse hyphen runs, strip hyphens from the ends. -/
def slugify (s : List Char) : List Char :=
  stripWhile isDash (collapseDashes (((pyStrip s).map pyLower).filterMap slugMap))

example : slugify "Perú".toList = "perú".toList := by decide
example : slugify "Teaser!".toList = "teaser".toList := by decide
example : slugify "Aurora".toList = "aurora".toList := by decide
example : slugify "  A  B  ".toList = "a-b".toList := by decide
example : slugify "---".toList = [] := by decide

/-- Dates: `now_yyyymmdd` is a clock read; the date is threaded through the
handlers as an opaque parameter. -/
abbrev DateStr := List Char

/-! ### Python dictionaries as association lists

A Python `dict` is an insertion-ordered mapping; `d[k] = v` overwrites in
place when `k` is present and appends otherwise. -/

/-- Membership test `k in d`. -/
def dictContains (k : List Char) : List (List Char × α) → Bool
  | [] => false
  | (k', _) :: rest => k' == k || dictContains k rest

/-- Indexing `d[k]` as an `Option` (`none` is Python's `KeyError`). -/
def dictLookup (k : List Char) : List (List Char × α) → Option α
  | [] => none
  | (k', v) :: rest => if k' = k then some v else dictLookup k rest

/-- Assignment `d[k] = v`. -/
def dictInsert (k : List Char) (v : α) : List (List Char × α) → List (List Char × α)
  | [] => [(k, v)]
  | (k', v') :: rest =>
    if k' = k then (k, v) :: rest else (k', v') :: dictInsert k v rest

/-! ### Data model -/

/-- The per-model dictionary stored under a model id in `models.json`
(app.py lines 340-347). -/
structure ModelProfile where
  id : List Char
  name : List Char
  country : List Char
  age : List Char
  tags : List (List Char)
  created_at : List Char
deriving DecidableEq

/-- The models document: id → profile, insertion ordered. -/
abbrev Models := List (List Char × ModelProfile)

/-- One entry of `uploads.json`'s `items` list (app.py lines 409-421). -/
structure UploadRecord where
  bucket : List Char
  region : List Char
  model_id : List Char
  model_name : List Char
  country : List Char
  type : List Char
  category : List Char
  date : List Char
  title : List Char
  path : List Char
  created_at : List Char
deriving DecidableEq

/-- The uploads document `{"items": [...]}`. -/
structure UploadsDoc where
  items : List UploadRecord
deriving DecidableEq

/-- Env defaults for `WASABI_BUCKET` / `WASABI_REGION`
(app.py lines 76-77). -/
def WASABI_BUCKET : List Char := "sensutv-media".toList

def WASABI_REGION : List Char := "eu-central-2".toList

/-! ### Record store (`_load_json` and the two loaders)

The outcome of reading the backing file is made explicit: the file can be
absent, unreadable (any exception while opening or parsing), or hold a
value. -/

/-- Result of attempting to read and parse a backing file. -/
inductive ReadResult (α : Type) : Type
  | absent : ReadResult α
  | unreadable : ReadResult α
  | ok (v : α) : ReadResult α
deriving DecidableEq

/-- Embeds `_load_json` (app.py lines 82-90): a missing file returns the default,
any exception is caught and returns the default. -/
def _load_json (r : ReadResult α) (default : α) : α :=
  match r with
  | .absent => default
  | .unreadable => default
  | .ok v => v

/-- Embeds `load_models` (app.py lines 100-101): default `{}`. -/
def load_models (r : ReadResult Models) : Models :=
  _load_json r []

/-- Embeds `load_uploads` (app.py lines 108-109): default `{"items": []}`. -/
def load_uploads (r : ReadResult UploadsDoc) : UploadsDoc :=
  _load_json r { items := [] }

/-! ### Conversation states and scratch data -/

/-- The conversation-state constants (app.py line 259) plus
`ConversationHandler.END`. -/
inductive ConvState : Type
  | S_MODEL_NAME | S_COUNTRY | S_AGE | S_TAGS | S_TYPE | S_CATEGORY | END
deriving DecidableEq

/-- The `context.user_data` keys touched by the register flow;
`.get(key, default)` is modelled by `Option.getD`. -/
structure RegScratch where
  model_name : Option (List Char) := none
  country : Option (List Char) := none
  age : Option (List Char) := none
deriving DecidableEq

/-- The `context.user_data` keys touched by the plan flow. -/
structure PlanScratch where
  plan_model_id : Option (List Char) := none
  plan_type : Option (List Char) := none
deriving DecidableEq

/-! ### Register flow handlers (app.py lines 309-355) -/

/-- Embeds `register_model_name`: store the stripped text, ask for the country. -/
def register_model_name (text : List Char) (ud : RegScratch) :
    ConvState × RegScratch :=
  (ConvState.S_COUNTRY, { ud with model_name := some (pyStrip text) })

/-- Embeds `register_country`: store the stripped text, ask for the age. -/
def register_country (text : List Char) (ud : RegScratch) :
    ConvState × RegScratch :=
  (ConvState.S_AGE, { ud with country := some (pyStrip text) })

/-- Embeds `register_age`: keep only digits, `"?"` if none remain. -/
def register_age (text : List Char) (ud : RegScratch) :
    ConvState × RegScratch :=
  let age := (pyStrip text).filter pyIsDigit
  (ConvState.S_TAGS, { ud with age := some (if age = [] then "?".toList else age) })

/-- Embeds `raw.split(",")` (Python `str.split` with an explicit separator:
empty pieces are kept). -/
def splitOnComma : List Char → List (List Char)
  | [] => [[]]
  | c :: rest =>
    match splitOnComma rest with
    | [] => [[c]]
    | cur :: parts =>
      if c = ',' then [] :: cur :: parts else (c :: cur) :: parts

example : splitOnComma "a, b,,c".toList
    = ["a".toList, " b".toList, [], "c".toList] := by decide

/-- Embeds `register_tags` (app.py lines 329-355): derive the tags and the model
id, insert the profile into the models document.  Returns the updated
document and the id used.  `now` is `int(time.time())`, `ts` the
`created_at` timestamp string. -/
def register_tags (text : List Char) (ud : RegScratch) (models : Models)
    (now : Nat) (ts : List Char) : Models × List Char :=
  let raw := pyStrip text
  let tags := ((splitOnComma raw).filter (fun x => pyStrip x ≠ [])).map slugify
  let name := pyStrip (ud.model_name.getD [])
  let country := pyStrip (ud.country.getD [])
  let age := ud.age.getD "?".toList
  let model_id :=
    if slugify name = [] then "model-".toList ++ Nat.toDigits 10 now
    else slugify name
  let profile : ModelProfile :=
    { id := model_id, name := name, country := country, age := age,
      tags := tags, created_at := ts }
  (dictInsert model_id profile models, model_id)

/-! ### Plan flow handlers (app.py lines 359-440) -/

/-- Embeds `plan_pick_model` (app.py lines 372-381): slugify the typed id; if it
is not a key of the (re)loaded models document, re-prompt and stay in
`S_MODEL_NAME`; otherwise store it and move to `S_TYPE`. -/
def plan_pick_model (text : List Char) (models : Models) (ud : PlanScratch) :
    ConvState × PlanScratch :=
  let model_id := slugify (pyStrip text)
  if dictContains model_id models then
    (ConvState.S_TYPE, { ud with plan_model_id := some model_id })
  else
    (ConvState.S_MODEL_NAME, ud)

/-- Embeds `plan_type` (app.py lines 384-392): accept exactly `video` / `foto`
after slugification; otherwise re-prompt and stay in `S_TYPE`. -/
def plan_type (text : List Char) (ud : PlanScratch) :
    ConvState × PlanScratch :=
  let t := slugify (pyStrip text)
  if t ∉ ["video".toList, "foto".toList] then (ConvState.S_TYPE, ud)
  else (ConvState.S_CATEGORY, { ud with plan_type := some t })

/-- Embeds `plan_category` (app.py lines 395-423), the commit step: slugify the
category (default `general`), read the scratch keys (`KeyError` → `none`),
index the reloaded models document (`KeyError` → `none`; in either error
case the exception propagates before `save_uploads`, so nothing is
written), derive the path and append one record to the uploads document.
Returns the new uploads document and the path. -/
def plan_category (text : List Char) (ud : PlanScratch) (models : Models)
    (uploads : UploadsDoc) (date : DateStr) (ts : List Char) :
    Option (UploadsDoc × List Char) :=
  let cat0 := slugify (pyStrip text)
  let cat := if cat0 = [] then "general".toList else cat0
  match ud.plan_model_id, ud.plan_type with
  | some model_id, some t =>
    match dictLookup model_id models with
    | none => none
    | some m =>
      let c0 := slugify m.country
      let country := if c0 = [] then "unknown".toList else c0
      let path := country ++ "/".toList ++ model_id ++ "/".toList ++ t
        ++ "/".toList ++ cat ++ "/".toList ++ date ++ "/".toList
      let rec0 : UploadRecord :=
        { bucket := WASABI_BUCKET, region := WASABI_REGION,
          model_id := model_id, model_name := m.name, country := m.country,
          type := t, category := cat, date := date,
          title := m.name ++ " • ".toList ++ t ++ " • ".toList ++ cat,
          path := path, created_at := ts }
      some ({ items := uploads.items ++ [rec0] }, path)
  | _, _ => none

/-- The two persisted documents together. -/
structure Store where
  models : Models
  uploads : UploadsDoc
deriving DecidableEq

/-- The effect of `plan_category` on the persisted documents: on success
`save_uploads` writes the appended document; on a `KeyError` nothing is
saved (and `save_models` is never called by the plan flow). -/
def plan_commit (text : List Char) (ud : PlanScratch) (date : DateStr)
    (ts : List Char) (st : Store) : Store :=
  match plan_category text ud st.models st.uploads date ts with
  | none => st
  | some (up, _) => { st with uploads := up }

/-! ### Web read API -/

/-- Embeds `GET /feed` (app.py lines 237-241): echo the `tier` query parameter
(default `"free"`) and return the reversed items list. -/
def feed (tierArg : Option (List Char)) (uploads : UploadsDoc) :
    List Char × List UploadRecord :=
  (tierArg.getD "free".toList, uploads.items.reverse)

/-! ### Lemmas about the character model -/

theorem toNat_ofNat_small (n : Nat) (h : n < 55296) : (Char.ofNat n).toNat = n := by
  unfold Char.ofNat
  rw [dif_pos (Or.inl h)]
  simp [Char.ofNatAux, Char.toNat, UInt32.toNat,
    Nat.mod_eq_of_lt (by omega : n < 4294967296)]

theorem pyLower_toNat (c : Char) :
    (pyLower c).toNat =
      if (65 ≤ c.toNat ∧ c.toNat ≤ 90) ∨
         (192 ≤ c.toNat ∧ c.toNat ≤ 222 ∧ c.toNat ≠ 215) then c.toNat + 32
      else c.toNat := by
  unfold pyLower
  split
  next h => exact toNat_ofNat_small _ (by omega)
  next h => rfl

theorem pyLower_eq_self (c : Char)
    (h : ¬((65 ≤ c.toNat ∧ c.toNat ≤ 90) ∨
      (192 ≤ c.toNat ∧ c.toNat ≤ 222 ∧ c.toNat ≠ 215))) : pyLower c = c := by
  unfold pyLower
  exact if_neg h

theorem pyLower_idem (c : Char) : pyLower (pyLower c) = pyLower c := by
  have h := pyLower_toNat c
  apply pyLower_eq_self
  by_cases hc : (65 ≤ c.toNat ∧ c.toNat ≤ 90) ∨
      (192 ≤ c.toNat ∧ c.toNat ≤ 222 ∧ c.toNat ≠ 215)
  · rw [if_pos hc] at h
    omega
  · rw [if_neg hc] at h
    omega

theorem pyIsAlnum_not_space (c : Char) (h : pyIsAlnum c = true) :
    pyIsSpace c = false := by
  simp only [pyIsAlnum, decide_eq_true_eq] at h
  simp only [pyIsSpace, decide_eq_false_iff_not]
  omega

/-! ### Lemmas about `stripWhile` -/

theorem head?_dropWhile (p : Char → Bool) (l : List Char) (c : Char)
    (h : (l.dropWhile p).head? = some c) : p c = false := by
  induction l with
  | nil => simp at h
  | cons a t ih =>
    rw [List.dropWhile_cons] at h
    split at h
    · exact ih h
    next hp =>
      simp only [List.head?_cons, Option.some.injEq] at h
      subst h
      simpa using hp

theorem stripWhile_head? (p : Char → Bool) (l : List Char) (c : Char)
    (h : (stripWhile p l).head? = some c) : p c = false := by
  unfold stripWhile at h
  rw [List.head?_reverse] at h
  set m := l.dropWhile p with hm
  set r := m.reverse.dropWhile p with hr
  by_cases hne : r = []
  · rw [hne] at h
    simp at h
  · have hsplit : m.reverse.takeWhile p ++ r = m.reverse :=
      List.takeWhile_append_dropWhile ..
    have hlast : r.getLast? = m.reverse.getLast? := by
      rw [← hsplit, List.getLast?_append_of_ne_nil _ hne]
    rw [hlast, List.getLast?_reverse] at h
    exact head?_dropWhile p l c h

theorem stripWhile_getLast? (p : Char → Bool) (l : List Char) (c : Char)
    (h : (stripWhile p l).getLast? = some c) : p c = false := by
  unfold stripWhile at h
  rw [List.getLast?_reverse] at h
  exact head?_dropWhile p _ c h

theorem dropWhile_eq_self_of_head? (p : Char → Bool) (l : List Char)
    (h : ∀ c, l.head? = some c → p c = false) : l.dropWhile p = l := by
  cases l with
  | nil => rfl
  | cons a t =>
    rw [List.dropWhile_cons, if_neg]
    simp [h a rfl]

theorem stripWhile_eq_self_of_edges (p : Char → Bool) (l : List Char)
    (h1 : ∀ c, l.head? = some c → p c = false)
    (h2 : ∀ c, l.getLast? = some c → p c = false) : stripWhile p l = l := by
  unfold stripWhile
  rw [dropWhile_eq_self_of_head? p l h1]
  rw [dropWhile_eq_self_of_head? p l.reverse
    (fun c hc => h2 c (by rwa [List.head?_reverse] at hc))]
  exact List.reverse_reverse l

theorem stripWhile_eq_self_of_all (p : Char → Bool) (l : List Char)
    (h : ∀ c ∈ l, p c = false) : stripWhile p l = l := by
  apply stripWhile_eq_self_of_edges
  · intro c hc
    exact h c (List.mem_of_mem_head? hc)
  · intro c hc
    exact h c (List.mem_of_mem_getLast? hc)

theorem mem_stripWhile (p : Char → Bool) (l : List Char) (c : Char)
    (h : c ∈ stripWhile p l) : c ∈ l := by
  unfold stripWhile at h
  rw [List.mem_reverse] at h
  have h2 := (List.dropWhile_sublist p).mem h
  rw [List.mem_reverse] at h2
  exact (List.dropWhile_sublist p).mem h2

/-! ### Lemmas about `collapseDashes` -/

/-- Adjacent hyphen pairs are forbidden. -/
def NoDD (l : List Char) : Prop :=
  List.Chain' (fun a b => ¬(a = '-' ∧ b = '-')) l

theorem collapseDashes_cons (t : List Char) :
    ∀ a : Char, ∃ t', collapseDashes (a :: t) = a :: t' := by
  induction t with
  | nil => exact fun a => ⟨[], rfl⟩
  | cons b r ih =>
    intro a
    by_cases h : a = '-' ∧ b = '-'
    · obtain ⟨t', ht⟩ := ih b
      refine ⟨t', ?_⟩
      simp only [collapseDashes, if_pos h]
      rw [ht, h.1, h.2]
    · obtain ⟨t', ht⟩ := ih b
      refine ⟨b :: t', ?_⟩
      simp only [collapseDashes, if_neg h]
      rw [ht]

theorem noDD_collapseDashes (l : List Char) : NoDD (collapseDashes l) := by
  cases l with
  | nil => exact List.chain'_nil
  | cons a t =>
    induction t generalizing a with
    | nil => exact List.chain'_singleton a
    | cons b r ih =>
      by_cases h : a = '-' ∧ b = '-'
      · simp only [collapseDashes, if_pos h]
        exact ih b
      · simp only [collapseDashes, if_neg h]
        obtain ⟨t', ht⟩ := collapseDashes_cons r b
        rw [ht]
        rw [NoDD, List.chain'_cons]
        exact ⟨h, ht ▸ ih b⟩

theorem collapseDashes_eq_self (l : List Char) (h : NoDD l) :
    collapseDashes l = l := by
  induction l with
  | nil => rfl
  | cons a t ih =>
    cases t with
    | nil => rfl
    | cons b r =>
      rw [NoDD, List.chain'_cons] at h
      simp only [collapseDashes, if_neg h.1]
      rw [ih h.2]

theorem NoDD.reverse {l : List Char} (h : NoDD l) : NoDD l.reverse := by
  rw [NoDD, List.chain'_reverse]
  exact h.imp (fun a b hab => by unfold flip; tauto)

theorem noDD_dropWhile (p : Char → Bool) (l : List Char) (h : NoDD l) :
    NoDD (l.dropWhile p) := by
  have := List.takeWhile_append_dropWhile p l
  rw [NoDD, ← this] at h
  exact h.right_of_append

theorem noDD_stripWhile (p : Char → Bool) (l : List Char) (h : NoDD l) :
    NoDD (stripWhile p l) :=
  ((noDD_dropWhile p _ (noDD_dropWhile p l h).reverse)).reverse

theorem mem_collapseDashes (l : List Char) (c : Char)
    (h : c ∈ collapseDashes l) : c ∈ l := by
  induction l with
  | nil => simp [collapseDashes] at h
  | cons a t ih =>
    cases t with
    | nil => simp only [collapseDashes] at h; exact h
    | cons b r =>
      by_cases hd : a = '-' ∧ b = '-'
      · simp only [collapseDashes, if_pos hd] at h
        exact List.mem_cons_of_mem a (ih h)
      · simp only [collapseDashes, if_neg hd] at h
        rcases List.mem_cons.mp h with h1 | h2
        · exact h1 ▸ List.mem_cons_self a _
        · exact List.mem_cons_of_mem a (ih h2)

theorem filterMap_eq_self (f : Char → Option Char) (l : List Char)
    (h : ∀ c ∈ l, f c = some c) : l.filterMap f = l := by
  induction l with
  | nil => rfl
  | cons a t ih =>
    rw [List.filterMap_cons, h a (List.mem_cons_self a t)]
    rw [ih (fun c hc => h c (List.mem_cons_of_mem a hc))]

theorem map_eq_self (f : Char → Char) (l : List Char)
    (h : ∀ c ∈ l, f c = c) : l.map f = l := by
  induction l with
  | nil => rfl
  | cons a t ih =>
    rw [List.map_cons, h a (List.mem_cons_self a t)]
    rw [ih (fun c hc => h c (List.mem_cons_of_mem a hc))]

/-! ### Shape of `slugify`'s output -/

theorem slugMap_some (a c : Char) (h : slugMap a = some c) :
    pyIsAlnum c = true ∨ c = '-' ∨ c = '_' := by
  unfold slugMap at h
  split at h
  next ha =>
    cases h
    exact Or.inl ha
  next =>
    split at h
    · cases h
      exact Or.inr (Or.inl rfl)
    · split at h
      next ha =>
        cases h
        rcases ha with ha | ha
        · exact Or.inr (Or.inr (ha ▸ rfl))
        · exact Or.inr (Or.inl (ha ▸ rfl))
      · cases h

theorem slugMap_fixpoint (c : Char) (h : pyIsAlnum c = true ∨ c = '-' ∨ c = '_') :
    slugMap c = some c := by
  rcases h with h | h | h
  · unfold slugMap
    rw [if_pos h]
  · rw [h]; decide
  · rw [h]; decide

/-- Every character of `slugify s` is an alphanumeric, `-` or `_`, is fixed
by `pyLower`, and is not whitespace. -/
theorem slugify_mem (s : List Char) (c : Char) (h : c ∈ slugify s) :
    (pyIsAlnum c = true ∨ c = '-' ∨ c = '_') ∧ pyLower c = c ∧
      pyIsSpace c = false := by
  unfold slugify at h
  have h2 := mem_collapseDashes _ c (mem_stripWhile _ _ c h)
  rw [List.mem_filterMap] at h2
  obtain ⟨a, ha, hfc⟩ := h2
  have hkind := slugMap_some a c hfc
  have hlow : pyLower c = c := by
    unfold slugMap at hfc
    split at hfc
    · cases hfc
      obtain ⟨b, _, hb⟩ := List.mem_map.mp ha
      rw [← hb]
      exact pyLower_idem b
    · split at hfc
      · cases hfc
        decide
      · split at hfc
        next ha2 =>
          cases hfc
          rcases ha2 with h' | h' <;> (rw [h']; decide)
        · cases hfc
  have hsp : pyIsSpace c = false := by
    rcases hkind with hk | hk | hk
    · exact pyIsAlnum_not_space c hk
    · rw [hk]; decide
    · rw [hk]; decide
  exact ⟨hkind, hlow, hsp⟩

theorem noDD_slugify (s : List Char) : NoDD (slugify s) :=
  noDD_stripWhile _ _ (noDD_collapseDashes _)

/-! ### Claim theorems -/

/-- C5: the normalization function `slugify` is idempotent:
`slugify (slugify s) = slugify s` for every string `s`. -/
theorem slugify_idempotent (s : List Char) :
    slugify (slugify s) = slugify s := by
  have hmem := slugify_mem s
  show stripWhile isDash
      (collapseDashes (((pyStrip (slugify s)).map pyLower).filterMap slugMap))
    = slugify s
  rw [show pyStrip (slugify s) = slugify s from
    stripWhile_eq_self_of_all _ _ (fun c hc => (hmem c hc).2.2)]
  rw [map_eq_self _ _ (fun c hc => (hmem c hc).2.1)]
  rw [filterMap_eq_self _ _ (fun c hc => slugMap_fixpoint c (hmem c hc).1)]
  rw [collapseDashes_eq_self _ (noDD_slugify s)]
  exact stripWhile_eq_self_of_edges _ _
    (fun c hc => stripWhile_head? isDash _ c hc)
    (fun c hc => stripWhile_getLast? isDash _ c hc)

/-- C6: for every input string, `slugify s` contains no two consecutive
hyphens and neither starts nor ends with a hyphen. -/
theorem slugify_no_double_or_edge_hyphen (s : List Char) :
    ¬ List.IsInfix ['-', '-'] (slugify s) ∧
      (slugify s).head? ≠ some '-' ∧ (slugify s).getLast? ≠ some '-' := by
  refine ⟨?_, ?_, ?_⟩
  · rintro ⟨pre, post, hsplit⟩
    have hdd : NoDD (['-', '-'] ++ post) := by
      have h := noDD_slugify s
      rw [← hsplit, NoDD, List.append_assoc] at h
      exact h.right_of_append
    rw [NoDD, List.cons_append, List.cons_append, List.chain'_cons] at hdd
    exact hdd.1 ⟨rfl, rfl⟩
  · intro h
    have := stripWhile_head? isDash _ '-' h
    simp [isDash] at this
  · intro h
    have := stripWhile_getLast? isDash _ '-' h
    simp [isDash] at this

/-- C6 witness: the properties at the concrete input `" a--b- "`. -/
theorem slugify_no_double_or_edge_hyphen_witness :
    ¬ List.IsInfix ['-', '-'] (slugify "  a--b- ".toList) ∧
      (slugify "  a--b- ".toList).head? ≠ some '-' ∧
      (slugify "  a--b- ".toList).getLast? ≠ some '-' :=
  slugify_no_double_or_edge_hyphen "  a--b- ".toList

/-- C2: for both document kinds, `load` returns the kind's empty default
when the backing file is absent or unreadable; being a total function of
the read outcome, it raises nothing to its caller. -/
theorem load_returns_default (rm : ReadResult Models) (ru : ReadResult UploadsDoc) :
    ((rm = ReadResult.absent ∨ rm = ReadResult.unreadable) → load_models rm = []) ∧
    ((ru = ReadResult.absent ∨ ru = ReadResult.unreadable) →
      load_uploads ru = { items := [] }) := by
  constructor <;> rintro (rfl | rfl) <;> rfl

/-- C2 witness: the defaults at concrete read outcomes. -/
theorem load_returns_default_witness :
    load_models ReadResult.absent = [] ∧
      load_uploads (ReadResult.unreadable) = { items := [] } :=
  ⟨(load_returns_default ReadResult.absent ReadResult.absent).1 (Or.inl rfl),
   (load_returns_default ReadResult.absent ReadResult.unreadable).2 (Or.inr rfl)⟩

/-- C3: `plan_type` stores the type and advances to the category state iff
the normalized input is exactly `video` or `foto`; any other input leaves
the state and the scratch data unchanged. -/
theorem plan_type_accepts_exactly_video_foto (text : List Char) (ud : PlanScratch) :
    (slugify (pyStrip text) ∈ ["video".toList, "foto".toList] →
      plan_type text ud = (ConvState.S_CATEGORY,
        { ud with plan_type := some (slugify (pyStrip text)) })) ∧
    (slugify (pyStrip text) ∉ ["video".toList, "foto".toList] →
      plan_type text ud = (ConvState.S_TYPE, ud)) := by
  constructor
  · intro h
    simp only [plan_type]
    rw [if_neg (not_not_intro h)]
  · intro h
    simp only [plan_type]
    rw [if_pos h]

/-- C3 witness: `"  VIDEO "` advances, `"jpeg"` re-prompts. -/
theorem plan_type_accepts_exactly_video_foto_witness :
    plan_type "  VIDEO ".toList {} = (ConvState.S_CATEGORY,
      { ({} : PlanScratch) with plan_type := some (slugify (pyStrip "  VIDEO ".toList)) }) ∧
    plan_type "jpeg".toList {} = (ConvState.S_TYPE, {}) :=
  ⟨(plan_type_accepts_exactly_video_foto "  VIDEO ".toList {}).1 (by decide),
   (plan_type_accepts_exactly_video_foto "jpeg".toList {}).2 (by decide)⟩

/-- C4: `plan_pick_model` self-loops with unchanged scratch data when the
normalized identifier is not a key of the loaded models document, and
stores it and advances to the type state when it is. -/
theorem plan_pick_model_validates (text : List Char) (models : Models)
    (ud : PlanScratch) :
    (dictContains (slugify (pyStrip text)) models = false →
      plan_pick_model text models ud = (ConvState.S_MODEL_NAME, ud)) ∧
    (dictContains (slugify (pyStrip text)) models = true →
      plan_pick_model text models ud = (ConvState.S_TYPE,
        { ud with plan_model_id := some (slugify (pyStrip text)) })) := by
  constructor <;> intro h <;> simp [plan_pick_model, h]

/-- A registered profile used for concrete instantiations. -/
def sampleProfile : ModelProfile :=
  { id := "aurora".toList, name := "Aurora".toList, country := "Perú".toList,
    age := "23".toList, tags := ["latina".toList], created_at := [] }

/-- C4 witness: `"nadie"` is rejected, `"aurora"` accepted, against a
one-model document. -/
theorem plan_pick_model_validates_witness :
    plan_pick_model "nadie".toList [("aurora".toList, sampleProfile)] {}
      = (ConvState.S_MODEL_NAME, {}) ∧
    plan_pick_model "aurora".toList [("aurora".toList, sampleProfile)] {}
      = (ConvState.S_TYPE, { ({} : PlanScratch) with
          plan_model_id := some (slugify (pyStrip "aurora".toList)) }) :=
  ⟨(plan_pick_model_validates "nadie".toList [("aurora".toList, sampleProfile)] {}).1
      (by decide),
   (plan_pick_model_validates "aurora".toList [("aurora".toList, sampleProfile)] {}).2
      (by decide)⟩

/-! ### Dictionary lemmas -/

theorem mem_dictInsert (k : List Char) (v : α) (m : List (List Char × α)) :
    ∀ kv ∈ dictInsert k v m, kv.1 = k ∨ kv ∈ m := by
  induction m with
  | nil =>
    intro kv h
    simp only [dictInsert, List.mem_singleton] at h
    exact Or.inl (by rw [h])
  | cons hd rest ih =>
    obtain ⟨k', v'⟩ := hd
    intro kv h
    simp only [dictInsert] at h
    split at h
    · rcases List.mem_cons.mp h with h1 | h1
      · exact Or.inl (by rw [h1])
      · exact Or.inr (List.mem_cons_of_mem _ h1)
    · rcases List.mem_cons.mp h with h1 | h1
      · exact Or.inr (h1 ▸ List.mem_cons_self _ _)
      · rcases ih kv h1 with h2 | h2
        · exact Or.inl h2
        · exact Or.inr (List.mem_cons_of_mem _ h2)

theorem dictContains_iff_lookup (k : List Char) (m : List (List Char × α)) :
    dictContains k m = true ↔ ∃ v, dictLookup k m = some v := by
  induction m with
  | nil => simp [dictContains, dictLookup]
  | cons hd rest ih =>
    obtain ⟨k', v'⟩ := hd
    simp only [dictContains, dictLookup, Bool.or_eq_true, beq_iff_eq]
    by_cases hk : k' = k
    · simp [hk]
    · simp [hk, ih]

theorem dictLookup_eq_none (k : List Char) (m : List (List Char × α))
    (h : dictContains k m = false) : dictLookup k m = none := by
  cases hl : dictLookup k m with
  | none => rfl
  | some v =>
    rw [(dictContains_iff_lookup k m).mpr ⟨v, hl⟩] at h
    exact absurd h (by simp)

/-- C7: registration always stores the profile under a non-empty key: the
name's slug when that is non-empty, and the time-based synthetic id
otherwise; so registration preserves non-emptiness of all keys of the
models document. -/
theorem register_tags_nonempty_key (text : List Char) (ud : RegScratch)
    (models : Models) (now : Nat) (ts : List Char)
    (h : ∀ kv ∈ models, kv.1 ≠ ([] : List Char)) :
    (register_tags text ud models now ts).2 ≠ [] ∧
    (slugify (pyStrip (ud.model_name.getD [])) ≠ [] →
      (register_tags text ud models now ts).2 =
        slugify (pyStrip (ud.model_name.getD []))) ∧
    (slugify (pyStrip (ud.model_name.getD [])) = [] →
      (register_tags text ud models now ts).2 =
        "model-".toList ++ Nat.toDigits 10 now) ∧
    (∀ kv ∈ (register_tags text ud models now ts).1, kv.1 ≠ ([] : List Char)) := by
  dsimp only [register_tags]
  by_cases hs : slugify (pyStrip (ud.model_name.getD [])) = []
  · rw [if_pos hs]
    refine ⟨by simp, fun hns => absurd hs hns, fun _ => rfl, ?_⟩
    intro kv hkv
    rcases mem_dictInsert _ _ _ kv hkv with h1 | h1
    · rw [h1]; simp
    · exact h kv h1
  · rw [if_neg hs]
    refine ⟨hs, fun _ => rfl, fun he => absurd he hs, ?_⟩
    intro kv hkv
    rcases mem_dictInsert _ _ _ kv hkv with h1 | h1
    · rw [h1]; exact hs
    · exact h kv h1

/-- C7 witness: a registration against the empty models document uses a
non-empty key. -/
theorem register_tags_nonempty_key_witness :
    (register_tags "latina".toList { model_name := some "Aurora".toList }
      [] 0 []).2 ≠ [] :=
  (register_tags_nonempty_key "latina".toList { model_name := some "Aurora".toList }
    [] 0 [] (by simp)).1

/-- C8: a successful plan commit leaves the models document untouched and
changes the uploads document exactly by appending one record at the end of
`items`. -/
theorem plan_commit_appends_one (text : List Char) (ud : PlanScratch)
    (date ts : List Char) (st : Store) (mid t : List Char)
    (h1 : ud.plan_model_id = some mid) (h2 : ud.plan_type = some t)
    (h3 : dictContains mid st.models = true) :
    (plan_commit text ud date ts st).models = st.models ∧
    ∃ r : UploadRecord,
      (plan_commit text ud date ts st).uploads.items = st.uploads.items ++ [r] := by
  obtain ⟨m, hm⟩ := (dictContains_iff_lookup mid st.models).mp h3
  unfold plan_commit plan_category
  rw [h1, h2]
  dsimp only
  rw [hm]
  exact ⟨rfl, _, rfl⟩

/-- C8 witness: a concrete commit against a one-model store. -/
theorem plan_commit_appends_one_witness :
    (plan_commit "Teaser!".toList
        { plan_model_id := some "aurora".toList, plan_type := some "video".toList }
        [] [] ⟨[("aurora".toList, sampleProfile)], ⟨[]⟩⟩).models
      = [("aurora".toList, sampleProfile)] ∧
    ∃ r : UploadRecord,
      (plan_commit "Teaser!".toList
        { plan_model_id := some "aurora".toList, plan_type := some "video".toList }
        [] [] ⟨[("aurora".toList, sampleProfile)], ⟨[]⟩⟩).uploads.items = [r] :=
  plan_commit_appends_one "Teaser!".toList
    { plan_model_id := some "aurora".toList, plan_type := some "video".toList }
    [] [] ⟨[("aurora".toList, sampleProfile)], ⟨[]⟩⟩
    "aurora".toList "video".toList rfl rfl (by decide)

/-- C10: the commit step's unguarded `models[model_id]` lookup: under the
precondition that the id accepted at pick time is still a key of the
reloaded document the error branch is unreachable (the commit succeeds);
when the precondition fails the lookup aborts the commit and neither
document changes — nothing in the code checks it. -/
theorem plan_category_lookup_guard (text : List Char) (ud : PlanScratch)
    (date ts : List Char) (st : Store) (mid t : List Char) :
    (ud.plan_model_id = some mid → ud.plan_type = some t →
      dictContains mid st.models = true →
      (plan_category text ud st.models st.uploads date ts).isSome = true) ∧
    (ud.plan_model_id = some mid → dictContains mid st.models = false →
      plan_category text ud st.models st.uploads date ts = none ∧
        plan_commit text ud date ts st = st) := by
  constructor
  · intro h1 h2 h3
    obtain ⟨m, hm⟩ := (dictContains_iff_lookup mid st.models).mp h3
    unfold plan_category
    rw [h1, h2]
    dsimp only
    rw [hm]
    rfl
  · intro h1 h3
    have hnone := dictLookup_eq_none mid st.models h3
    have hcat : plan_category text ud st.models st.uploads date ts = none := by
      unfold plan_category
      rw [h1]
      cases ht : ud.plan_type with
      | none => rfl
      | some t' =>
        dsimp only
        rw [hnone]
    refine ⟨hcat, ?_⟩
    unfold plan_commit
    rw [hcat]

/-- C10 witness: the commit succeeds when the model is present and leaves
the store untouched when it has disappeared. -/
theorem plan_category_lookup_guard_witness :
    (plan_category "Teaser!".toList
        { plan_model_id := some "aurora".toList, plan_type := some "video".toList }
        [("aurora".toList, sampleProfile)] ⟨[]⟩ [] []).isSome = true ∧
    plan_commit "Teaser!".toList
        { plan_model_id := some "aurora".toList, plan_type := some "video".toList }
        [] [] ⟨[], ⟨[]⟩⟩
      = ⟨[], ⟨[]⟩⟩ :=
  ⟨(plan_category_lookup_guard "Teaser!".toList
      { plan_model_id := some "aurora".toList, plan_type := some "video".toList }
      [] [] ⟨[("aurora".toList, sampleProfile)], ⟨[]⟩⟩
      "aurora".toList "video".toList).1 rfl rfl (by decide),
   ((plan_category_lookup_guard "Teaser!".toList
      { plan_model_id := some "aurora".toList, plan_type := some "video".toList }
      [] [] ⟨[], ⟨[]⟩⟩ "aurora".toList "video".toList).2 rfl (by decide)).2⟩

/-- C9: the `tier` query parameter of `GET /feed` does not influence the
returned items: any two tier values yield the identical reversed items
list; the tier value is only echoed back. -/
theorem feed_tier_not_enforced (t1 t2 : Option (List Char)) (up : UploadsDoc) :
    (feed t1 up).2 = (feed t2 up).2 ∧ (feed t1 up).2 = up.items.reverse ∧
      (feed t1 up).1 = t1.getD "free".toList :=
  ⟨rfl, rfl, rfl⟩

/-- The models document produced by completing the register flow with the
answers Aurora / Perú / 23 / latina against an empty store. -/
def auroraModels (now : Nat) (ts : List Char) : Models :=
  (register_tags "latina".toList
    (register_age "23".toList
      (register_country "Perú".toList
        (register_model_name "Aurora".toList {}).2).2).2
    [] now ts).1

/-- The scratch data after the plan flow accepts id `aurora` and type
`video`. -/
def auroraPlanScratch (now : Nat) (ts : List Char) : PlanScratch :=
  (plan_type "video".toList
    (plan_pick_model "aurora".toList (auroraModels now ts) {}).2).2

set_option maxHeartbeats 2000000 in
/-- C1 (amended): registering `{name: "Aurora", country: "Perú"}` and then
planning `type = "video"`, `category = "Teaser!"` commits one UploadRecord
whose path is `"perú/aurora/video/teaser/<today>/"`: the punctuation is
dropped and everything is lowercased, but the accented `ú` is KEPT —
Python's `str.isalnum` is true for it, so `slugify` passes it through. -/
theorem plan_path_aurora_peru (now : Nat) (ts ts2 date : List Char)
    (up : UploadsDoc) :
    ∃ r : UploadRecord,
      plan_category "Teaser!".toList (auroraPlanScratch now ts)
          (auroraModels now ts) up date ts2
        = some ({ items := up.items ++ [r] }, r.path) ∧
      r.path = "perú/aurora/video/teaser/".toList ++ date ++ "/".toList := by
  refine ⟨_, rfl, ?_⟩
  rfl

/-- C1 counterexample: at the concrete date `2026-10-12` the committed
path is `"perú/aurora/video/teaser/2026-10-12/"` and differs from the
claimed `"peru/aurora/video/teaser/2026-10-12/"`. -/
theorem plan_path_aurora_peru_counterexample :
    (plan_category "Teaser!".toList (auroraPlanScratch 0 [])
        (auroraModels 0 []) ⟨[]⟩ "2026-10-12".toList []).map Prod.snd
      = some "perú/aurora/video/teaser/2026-10-12/".toList ∧
    (plan_category "Teaser!".toList (auroraPlanScratch 0 [])
        (auroraModels 0 []) ⟨[]⟩ "2026-10-12".toList []).map Prod.snd
      ≠ some "peru/aurora/video/teaser/2026-10-12/".toList := by
  constructor <;> decide

end SensuTV
